import Mathlib

/-!
Verification development for the chrono-probe measurement library.

The Rust sources are shallowly embedded:

* `std::time::Duration` values are nanosecond counts (`ℕ`); `Duration / u32`
  is truncating natural division of the nanosecond count, `Duration * u32`
  natural multiplication, matching the std semantics on all inputs used here.
* `usize`/`u32` values are `ℕ`; Rust's saturating float-to-integer casts are
  modelled explicitly (`ratCastU32`, `FRes.castUsize`).
* `f32`/`f64` arithmetic is modelled over `ℚ`.  Every concrete theorem below
  uses only inputs on which the actual float computation is exact (or, where
  a rounding step intervenes, provably lands on the same integer after the
  final truncating cast); these places carry comments.  The libm
  transcendentals `ln`/`exp` are abstract function parameters, constrained in
  theorem hypotheses only by values that the IEEE / C standard fixes exactly
  (`ln 1 = 0`, `exp 0 = 1`, `ln 2 > 0`).
* A float expression whose value can be an infinity or a NaN is tracked by
  the sum type `FRes`; in the code under study this can only arise at the
  final division `z / lambda` of `Exponential::inverse_cdf`, modelled by
  `fdiv`, and at the lambda computation for a degenerate range (noted at
  `Exponential.new`).
* Rust panics (`assert!` failures, division by zero) are `Except.error`
  values of type `RtError`, distinguishing validation failures
  (`invalidArgument`, from an explicit `assert!`) from arithmetic panics
  (`divByZero`).
-/

namespace ChronoProbe

/-- `usize::MAX` (the library targets 64-bit platforms). -/
def usizeMax : ℕ := 2 ^ 64 - 1

/-- `u32::MAX`. -/
def u32Max : ℕ := 2 ^ 32 - 1

/-- Models Rust's saturating cast `x as u32` of a finite float value `x`:
truncation toward zero, clamped to `[0, u32::MAX]`. -/
def ratCastU32 (q : ℚ) : ℕ :=
  if q ≤ 0 then 0 else min ⌊q⌋.toNat u32Max

/-- Result of a float computation that may leave the finite range:
a finite value, an infinity, or a NaN. -/
inductive FRes where
  | num (q : ℚ)
  | posInf
  | negInf
  | nan
deriving DecidableEq

/-- Models Rust's saturating cast `x as usize` of an `f64`:
NaN casts to 0, infinities saturate, finite values truncate toward zero
and clamp to `[0, usize::MAX]`. -/
def FRes.castUsize : FRes → ℕ
  | .num q => if q ≤ 0 then 0 else min ⌊q⌋.toNat usizeMax
  | .posInf => usizeMax
  | .negInf => 0
  | .nan => 0

/-- Models the `f64` division `a / b` where the operands are finite:
`0/0` is NaN, `a/0` with `a ≠ 0` a signed infinity. -/
def fdiv (a b : ℚ) : FRes :=
  if b = 0 then
    if a = 0 then .nan else if 0 < a then .posInf else .negInf
  else .num (a / b)

/-- Panics of the Rust code: `assert!` validation failures and
arithmetic panics (integer division by zero). -/
inductive RtError where
  | invalidArgument
  | divByZero
deriving DecidableEq

/-- `GenerationType` from `src/input/distribution.rs`. -/
inductive GenerationType where
  | fixedIntervals
  | random
deriving DecidableEq

/-- The blanket `impl<T: ProbabilityDistribution + Debug> Distribution for T`
`generate` method from `src/input/distribution.rs` (lines 192-216).
`icdf` is the distribution's `inverse_cdf`; `draws i` models the value of
`thread_rng().gen::<f64>()` at the `i`-th iteration (used only in `Random`
mode).  The `assert!(n > 0)` is the `invalidArgument` error; it fires before
any size is computed, hence the error does not depend on `icdf` or `draws`. -/
def generate (icdf : ℚ → FRes) (genType : GenerationType) (draws : ℕ → ℚ)
    (n : ℕ) : Except RtError (List ℕ) :=
  if n = 0 then .error .invalidArgument
  else .ok ((List.range n).map (fun (i : ℕ) =>
    let u : ℚ :=
      match genType with
      | .fixedIntervals => if n ≠ 1 then (i : ℚ) / ((n - 1 : ℕ) : ℚ) else 0
      | .random => draws i
    (icdf u).castUsize))

/-- The `Uniform` distribution struct (`src/input/distribution.rs`). -/
structure Uniform where
  rangeStart : ℕ
  rangeEnd : ℕ
  genType : GenerationType
deriving DecidableEq

/-- `Uniform::new`: asserts the range is non-empty, defaults to
`FixedIntervals` generation. -/
def Uniform.new (s e : ℕ) : Except RtError Uniform :=
  if e < s then .error .invalidArgument
  else .ok ⟨s, e, .fixedIntervals⟩

/-- `Uniform::inverse_cdf` (lines 258-268): `a + b * u` with
`a = range.start`, `b = range.end - range.start` (usize subtraction,
well-defined since the constructor enforced `start ≤ end`). -/
def Uniform.inverse_cdf (U : Uniform) (u : ℚ) : ℚ :=
  let a : ℚ := (U.rangeStart : ℚ)
  let b : ℚ := ((U.rangeEnd - U.rangeStart : ℕ) : ℚ)
  a + b * u

/-- The `Exponential` distribution struct (`src/input/distribution.rs`).
`lambda` is finite here; see `Exponential.new` for the degenerate case. -/
structure Exponential where
  rangeStart : ℕ
  rangeEnd : ℕ
  lambda : ℚ
  genType : GenerationType
deriving DecidableEq

/-- `Exponential::new` (lines 287-297), with `fln` the abstract libm `ln`:
asserts the range is non-empty, then computes
`lambda = ((range.end() / range.start()) as f64).ln() / ((range.end() - range.start()) as f64)`.
Note the *integer* (usize) division `end / start` inside the `ln` argument:
it panics (`divByZero`) when `start = 0`, and truncates the ratio otherwise.
When `start = end` the Rust value of `lambda` is `ln 1 / 0.0 = 0.0/0.0 = NaN`;
the model stores the rational `0` instead — no theorem below evaluates an
`Exponential` with `start = end`. -/
def Exponential.new (fln : ℚ → ℚ) (s e : ℕ) : Except RtError Exponential :=
  if e < s then .error .invalidArgument
  else if s = 0 then .error .divByZero
  else .ok ⟨s, e, fln ((e / s : ℕ) : ℚ) / ((e - s : ℕ) : ℚ), .fixedIntervals⟩

/-- `Exponential::inverse_cdf` (lines 330-383), with `fexp`/`fln` the abstract
libm `exp`/`ln`.  `f64::MAX_EXP as f64 * 2.0_f64.ln()` is `1024 * fln 2`.
The final `z / lambda` of every branch is the `f64` division `fdiv`. -/
def Exponential.inverse_cdf (fexp fln : ℚ → ℚ) (E : Exponential) (u : ℚ) :
    FRes :=
  let mn : ℚ := (E.rangeStart : ℚ)
  let mx : ℚ := (E.rangeEnd : ℚ)
  let lambda := E.lambda
  let x := lambda * mn
  let y := lambda * mx
  if u = 1 then .num mx
  else if u = 0 then .num mn
  else if y - x < 1024 * fln 2 then
    fdiv (y - fln ((1 - u) * fexp (y - x) + u)) lambda
  else if fln (1 / (1 - u)) < y - x then
    fdiv (x - fln (1 - u)) lambda
  else
    fdiv (y - fln u) lambda

/-- `Point` from `src/measurements.rs`: input size and processing time
(the `Duration` as a nanosecond count). -/
structure Point where
  size : ℕ
  time : ℕ
deriving DecidableEq

/-- `Measurement` from `src/measurements.rs`: one series per algorithm. -/
structure Measurement where
  algorithm_name : String
  measurement : List Point
deriving DecidableEq

/-- `Measurements` from `src/measurements.rs`: all series plus the shared
run metadata. -/
structure Measurements where
  measurements : List Measurement
  relative_error : ℚ
  resolution : ℕ
deriving DecidableEq

/-- `min_time_measurable` as computed in `get_time`/`get_time_mut`
(`src/measurements.rs` line 112):
`resolution * ((1.0 / relative_error) + 1.0) as u32`.
The `as u32` cast applies to the float factor (it binds tighter than `*`),
so the factor is truncated to a whole number *before* the `Duration * u32`
multiplication. -/
def minTimeMeasurable (resolution : ℕ) (relative_error : ℚ) : ℕ :=
  resolution * ratCastU32 (1 / relative_error + 1)

/-- The timing loop of `get_time` (`src/measurements.rs` lines 105-130) over
an abstract clock: `elapsedAt k` is the value of `start.elapsed()` observed
right after the `k`-th call of the algorithm (`k ≥ 1`).  The loop body runs
with call counter `n'`; it exits with `some (n, elapsed)` at the first call
after which the elapsed time exceeds `min_time_measurable`.  `fuel` bounds
the number of iterations modelled (the Rust loop has no such bound; `none`
means the loop did not exit within `fuel` iterations). -/
def getTimeLoop (elapsedAt : ℕ → ℕ) (m : ℕ) : ℕ → ℕ → Option (ℕ × ℕ)
  | 0, _ => none
  | fuel + 1, n =>
    let n' := n + 1
    let e := elapsedAt n'
    if m < e then some (n', e) else getTimeLoop elapsedAt m fuel n'

/-- `get_time`: runs the timing loop and returns `end / n`
(`Duration / u32`, i.e. truncating division of the nanosecond count). -/
def get_time (elapsedAt : ℕ → ℕ) (relative_error : ℚ) (resolution : ℕ)
    (fuel : ℕ) : Option ℕ :=
  (getTimeLoop elapsedAt (minTimeMeasurable resolution relative_error) fuel 0).map
    (fun p => p.2 / p.1)

/-- `get_time_same_length` (`src/measurements.rs` lines 188-208) over an
abstract timing engine: `measureOne i` is the mean duration that `get_time`
returns for input `i` (the clock is abstracted away), `getSize` is
`Input::get_size`.  `inputs[0]` panics on an empty vector (`none`);
otherwise the loop accumulates `total_time` over all inputs. -/
def get_time_same_length {I : Type} (getSize : I → ℕ) (measureOne : I → ℕ) :
    List I → Option Point
  | [] => none
  | i :: rest =>
    some ⟨getSize i,
      List.foldl (fun acc inp => acc + measureOne inp) 0 (i :: rest)⟩

/-- `get_time_same_length_mut` (`src/measurements.rs` lines 219-239):
identical aggregation with `get_time_mut` (abstracted as `measureOneMut`)
in place of `get_time`. -/
def get_time_same_length_mut {I : Type} (getSize : I → ℕ)
    (measureOneMut : I → ℕ) : List I → Option Point
  | [] => none
  | i :: rest =>
    some ⟨getSize i,
      List.foldl (fun acc inp => acc + measureOneMut inp) 0 (i :: rest)⟩

/-- `InputBuilder::build_with_repetitions` (`src/input/mod.rs` lines
168-195).  `dist n` models `self.distribution.generate(n)` (an `Except`
since `generate` can itself `assert!`); `gen s k` models
`I::generate_input(s, &self.builder)` at the `k`-th repetition for size `s`
(the second argument stands for the fresh thread-local randomness each call
draws, so repetitions are independently generated instances).  Both
`assert!`s fire before the distribution is invoked and before any input is
generated. -/
def buildWithRepetitions {I : Type} (gen : ℕ → ℕ → I)
    (dist : ℕ → Except RtError (List ℕ)) (n repetitions : ℕ) :
    Except RtError (List (List I)) :=
  if n = 0 then .error .invalidArgument
  else if repetitions = 0 then .error .invalidArgument
  else
    (dist n).map (fun sizes =>
      sizes.map (fun s => (List.range repetitions).map (fun k => gen s k)))

/-- `measure` (`src/measurements.rs` lines 321-349) with the timing engine
abstracted: `engine a` is the `Measurement` that `get_times` produces for
algorithm `a` with the computed clock `resolution`.  The
`assert!(relative_error > 0.0)` fires before the clock is calibrated and
before any timing occurs, hence the error does not depend on `engine`,
`algorithms` or `resolution`. -/
def measure {A : Type} (resolution : ℕ) (engine : A → Measurement)
    (algorithms : List A) (relative_error : ℚ) : Except RtError Measurements :=
  if 0 < relative_error then
    .ok ⟨algorithms.map engine, relative_error, resolution⟩
  else .error .invalidArgument

/-- `measure_mut` (`src/measurements.rs` lines 359-387): same structure as
`measure` with `get_times_mut` (abstracted likewise) as the engine. -/
def measure_mut {A : Type} (resolution : ℕ) (engine : A → Measurement)
    (algorithms : List A) (relative_error : ℚ) : Except RtError Measurements :=
  if 0 < relative_error then
    .ok ⟨algorithms.map engine, relative_error, resolution⟩
  else .error .invalidArgument

/-- Models `(x as f32).log2() as usize` (and the `as u64` variant) for a
natural `x`.  For `x = 0` the float pipeline gives `log2(0.0) = -inf`, and
Rust's saturating cast sends `-inf` to `0`; for `x ≥ 1` the result is the
integer part of `log2 x`, i.e. `Nat.log2 x`.  (`f32` rounding of the cast
`x as f32` can push the truncated logarithm up by one when `x ≥ 2^24` sits
just below a power of two; no theorem below evaluates this function there —
the theorems use only `0`, `1`, small values and exact powers of two, on
which the float pipeline is exact.) -/
def log2Cast (x : ℕ) : ℕ :=
  if x = 0 then 0 else Nat.log2 x

/-- The per-point transform inlined in `Measurement::log_log_scale`
(`src/measurements.rs` lines 455-459):
`size := (size as f32).log2() as usize` and
`time := Duration::from_micros((time.as_micros() as f32).log2() as u64)`.
`as_micros` truncates nanoseconds to microseconds; `from_micros` scales
back to nanoseconds. -/
def logLogPoint (p : Point) : Point :=
  ⟨log2Cast p.size, 1000 * log2Cast (p.time / 1000)⟩

/-- `Measurement::log_log_scale` (`src/measurements.rs` lines 450-462):
same `algorithm_name`, every point transformed by `logLogPoint` (the
push-loop over `self.measurement` is a map). -/
def Measurement.log_log_scale (m : Measurement) : Measurement :=
  ⟨m.algorithm_name, m.measurement.map logLogPoint⟩

/-- `Measurements::log_log_scale` (`src/measurements.rs` lines 504-516):
`relative_error` and `resolution` are copied unchanged, every series is
transformed by `Measurement::log_log_scale`. -/
def Measurements.log_log_scale (ms : Measurements) : Measurements :=
  ⟨ms.measurements.map Measurement.log_log_scale, ms.relative_error,
    ms.resolution⟩

/-- An abstract clock for exercising `getTimeLoop` on concrete inputs:
the elapsed time observed after the `k`-th call is `3k` nanoseconds. -/
def demoClock (k : ℕ) : ℕ := 3 * k

theorem getTimeLoop_some (f : ℕ → ℕ) (m : ℕ) :
    ∀ fuel s n e, getTimeLoop f m fuel s = some (n, e) →
      s < n ∧ e = f n ∧ m < e := by
  intro fuel
  induction fuel with
  | zero => intro s n e h; simp [getTimeLoop] at h
  | succ k ih =>
    intro s n e h
    simp only [getTimeLoop] at h
    by_cases hc : m < f (s + 1)
    · rw [if_pos hc] at h
      obtain ⟨rfl, rfl⟩ : n = s + 1 ∧ e = f (s + 1) := by
        have := Option.some.inj h
        exact ⟨(congrArg Prod.fst this).symm, (congrArg Prod.snd this).symm⟩
      exact ⟨Nat.lt_succ_self s, rfl, hc⟩
    · rw [if_neg hc] at h
      obtain ⟨hs, he, hm⟩ := ih (s + 1) n e h
      exact ⟨Nat.lt_of_succ_lt hs, he, hm⟩

theorem foldl_add_eq_sum {I : Type} (m : I → ℕ) :
    ∀ (l : List I) (a : ℕ),
      List.foldl (fun acc i => acc + m i) a l = a + (l.map m).sum := by
  intro l
  induction l with
  | nil => intro a; simp
  | cons x xs ih =>
    intro a
    simp only [List.foldl, List.map, List.sum_cons, ih (a + m x)]
    omega

theorem minTimeMeasurable_two_two : minTimeMeasurable 2 2 = 2 := by
  unfold minTimeMeasurable ratCastU32 u32Max
  have h1 : (1 : ℚ) / 2 + 1 = 3 / 2 := by norm_num
  have h2 : ⌊(3 / 2 : ℚ)⌋ = 1 := by
    rw [Int.floor_eq_iff]
    norm_num
  rw [h1, if_neg (by norm_num), h2]
  norm_num

theorem castUsize_natCast (n : ℕ) (h : n < 2 ^ 64) :
    FRes.castUsize (.num (n : ℚ)) = n := by
  simp only [FRes.castUsize, usizeMax]
  rcases Nat.eq_zero_or_pos n with rfl | hn
  · simp
  · rw [if_neg (by exact_mod_cast Nat.not_le.mpr hn), Int.floor_natCast]
    simp only [Int.toNat_natCast]
    omega

/-- C1 (counterexample): the claim that the loop of `get_time` exits only
once `elapsed > resolution * (1/relative_error + 1)` is false as stated,
because the factor `(1.0/relative_error) + 1.0` is truncated to a `u32`
before the multiplication.  Concretely, with `relative_error = 2` (exactly
representable, all f32 steps exact: `1/2 + 1 = 1.5`, cast to `1`) and a
clock of resolution 2 ns showing 3 ns elapsed after the first call, the
loop exits after `n = 1` calls with `elapsed = 3`, yet
`3 > 2 * (1/2 + 1) = 3` is false. -/
theorem get_time_exit_bound_counterexample :
    getTimeLoop demoClock (minTimeMeasurable 2 2) 5 0 = some (1, 3) ∧
    ¬ ((3 : ℚ) > 2 * (1 / (2 : ℚ) + 1)) := by
  constructor
  · rw [minTimeMeasurable_two_two]; decide
  · norm_num

/-- C1 (amended): when the timing loop of `get_time` exits after `n` calls
with accumulated elapsed time `e`, then `n ≥ 1`, `e` is the elapsed time
observed after the `n`-th call and it exceeds
`resolution * ((1/relative_error + 1) truncated to u32)`
(= `min_time_measurable`), and `get_time` returns `e / n`, the truncating
nanosecond division of the elapsed time by the number of calls. -/
theorem get_time_exit_bound (elapsedAt : ℕ → ℕ) (relative_error : ℚ)
    (resolution fuel n e : ℕ)
    (h : getTimeLoop elapsedAt (minTimeMeasurable resolution relative_error)
          fuel 0 = some (n, e)) :
    1 ≤ n ∧ e = elapsedAt n ∧
    minTimeMeasurable resolution relative_error < e ∧
    get_time elapsedAt relative_error resolution fuel = some (elapsedAt n / n) := by
  obtain ⟨hn, he, hm⟩ :=
    getTimeLoop_some elapsedAt (minTimeMeasurable resolution relative_error)
      fuel 0 n e h
  refine ⟨hn, he, hm, ?_⟩
  simp only [get_time, h, Option.map_some]
  exact congrArg some (by rw [he])

/-- Witness for C1's amended theorem at the concrete clock of the
counterexample. -/
theorem get_time_exit_bound_witness :
    1 ≤ 1 ∧ 3 = demoClock 1 ∧ minTimeMeasurable 2 2 < 3 ∧
    get_time demoClock 2 2 5 = some (demoClock 1 / 1) :=
  get_time_exit_bound demoClock 2 2 5 1 3
    (by rw [minTimeMeasurable_two_two]; decide)

/-- C3: on a non-empty group of inputs all of one nominal size `s`,
`get_time_same_length` (and its `_mut` sibling) returns the `Point` whose
size is `s` and whose time is the sum of the per-repetition mean durations
returned by the abstracted `get_time`/`get_time_mut`. -/
theorem get_time_same_length_point {I : Type}
    (getSize measureOne measureOneMut : I → ℕ) (inputs : List I) (s : ℕ)
    (hne : inputs ≠ []) (hs : ∀ i ∈ inputs, getSize i = s) :
    get_time_same_length getSize measureOne inputs =
      some ⟨s, (inputs.map measureOne).sum⟩ ∧
    get_time_same_length_mut getSize measureOneMut inputs =
      some ⟨s, (inputs.map measureOneMut).sum⟩ := by
  cases inputs with
  | nil => exact absurd rfl hne
  | cons i rest =>
    have hsz : getSize i = s := hs i (List.mem_cons_self i rest)
    constructor
    · simp only [get_time_same_length, hsz, foldl_add_eq_sum, Nat.zero_add]
    · simp only [get_time_same_length_mut, hsz, foldl_add_eq_sum, Nat.zero_add]

/-- Witness for C3 on a concrete group of three inputs of size 7. -/
theorem get_time_same_length_point_witness :
    get_time_same_length (fun x => x) (fun _ => 4) [7, 7, 7] =
      some ⟨7, 12⟩ ∧
    get_time_same_length_mut (fun x => x) (fun _ => 6) [7, 7, 7] =
      some ⟨7, 18⟩ :=
  get_time_same_length_point (fun x => x) (fun _ => 4) (fun _ => 6) [7, 7, 7] 7
    (by decide) (by decide)

/-- C4 (code bug): `Exponential::new` over the range `2..=5` stores
`lambda = ln(2) / 3`, not `ln(5/2) / 3` as documented: the ratio
`range.end() / range.start()` is computed with *integer* division
(`5 / 2 = 2`) before the cast to `f64`.  The second conjunct records the
divergence: the integer quotient `2` differs from the real ratio `5/2`, so
the stored lambda differs from the documented one for every injective
(in particular the real) logarithm. -/
theorem exponential_new_integer_division (fln : ℚ → ℚ) :
    Exponential.new fln 2 5 = .ok ⟨2, 5, fln 2 / 3, .fixedIntervals⟩ ∧
    (((5 : ℕ) / (2 : ℕ) : ℕ) : ℚ) ≠ (5 : ℚ) / 2 := by
  constructor
  · simp only [Exponential.new]
    norm_num
  · norm_num

/-- Witness for C4's theorem with the identity standing in for `ln`. -/
theorem exponential_new_integer_division_witness :
    Exponential.new (fun q => q) 2 5 =
      .ok ⟨2, 5, (2 : ℚ) / 3, .fixedIntervals⟩ ∧
    (((5 : ℕ) / (2 : ℕ) : ℕ) : ℚ) ≠ (5 : ℚ) / 2 :=
  exponential_new_integer_division (fun q => q)

/-- C5: `Uniform::new(1..=100)` (which defaults to `FixedIntervals`
generation) asked for 10 sizes yields exactly
`1, 12, 23, 34, 45, 56, 67, 78, 89, 100`.  In the model the arithmetic is
exact: `u = i/9`, `1 + 99·(i/9) = 1 + 11·i`; the actual `f64` computation
truncates to the same integers (the products stay within half an ulp of
the exact integer values, so the `as usize` truncation agrees). -/
theorem uniform_fixed_intervals_sequence :
    ∃ U : Uniform, Uniform.new 1 100 = .ok U ∧
      generate (fun u => FRes.num (U.inverse_cdf u)) U.genType (fun _ => 0)
          10 =
        .ok [1, 12, 23, 34, 45, 56, 67, 78, 89, 100] := by
  refine ⟨⟨1, 100, .fixedIntervals⟩, rfl, ?_⟩
  unfold generate
  rw [if_neg (by norm_num)]
  norm_num [List.range_succ, Uniform.inverse_cdf, FRes.castUsize, usizeMax]
  omega

/-- C8 (counterexample): constructing an `Exponential` over `0..=10` does
not fail with the `InvalidArgument` condition of an `assert!`: the only
validation performed is non-emptiness of the range, and `min = 0` instead
hits the divide-by-zero panic of the integer division
`range.end() / range.start()` inside the lambda computation. -/
theorem exponential_new_min_zero_counterexample :
    Exponential.new (fun q => q) 0 10 = .error .divByZero ∧
    RtError.divByZero ≠ RtError.invalidArgument := by
  exact ⟨rfl, by decide⟩

/-- C8 (amended): `Exponential::new` validates only that the range is
non-empty (`InvalidArgument` on an inverted range); a range with minimum 0
always passes that check and then fails with a divide-by-zero panic while
computing lambda, before any value is produced. -/
theorem exponential_new_validation (fln : ℚ → ℚ) (s e : ℕ) :
    Exponential.new fln 0 e = .error .divByZero ∧
    (e < s → Exponential.new fln s e = .error .invalidArgument) := by
  constructor
  · simp [Exponential.new]
  · intro h
    simp [Exponential.new, h]

/-- Witness for C8's amended theorem. -/
theorem exponential_new_validation_witness :
    Exponential.new (fun q => q) 0 3 = .error .divByZero ∧
    (3 < 5 → Exponential.new (fun q => q) 5 3 = .error .invalidArgument) :=
  exponential_new_validation (fun q => q) 5 3

/-- C2 (code bug): for the Exponential distribution over `2..=3` with the
default `FixedIntervals` generation, `generate(3)` returns `[2, 0, 3]` —
the interior sample is 0, outside `[min, max] = [2, 3]`.  Cause: the
integer division in `Exponential::new` makes `lambda = ln(3/2 = 1)/1 = 0`,
so the interior sample computes `z/lambda = 0.0/0.0 = NaN`, and the
saturating `as usize` cast turns NaN into 0.  The hypotheses pin the
abstract libm functions only at values the IEEE/C standard fixes exactly
(`ln 1 = 0`, `exp 0 = 1`, `ln 2 > 0`). -/
theorem exponential_generate_escapes_range (fexp fln : ℚ → ℚ)
    (hln1 : fln 1 = 0) (hln2 : 0 < fln 2) (hexp0 : fexp 0 = 1) :
    ∃ E : Exponential, Exponential.new fln 2 3 = .ok E ∧
      generate (E.inverse_cdf fexp fln) E.genType (fun _ => 0) 3 =
        .ok [2, 0, 3] ∧ ¬ (2 ≤ (0 : ℕ)) := by
  refine ⟨⟨2, 3, 0, .fixedIntervals⟩, ?_, ?_, by omega⟩
  · unfold Exponential.new
    rw [if_neg (by norm_num), if_neg (by norm_num)]
    norm_num [hln1]
  · have hc : (0 : ℚ) < 1024 * fln 2 := by linarith
    have e0 : (Exponential.inverse_cdf fexp fln ⟨2, 3, 0, .fixedIntervals⟩
        0).castUsize = 2 := by
      simp only [Exponential.inverse_cdf]
      norm_num
      exact castUsize_natCast 2 (by norm_num)
    have e1 : (Exponential.inverse_cdf fexp fln ⟨2, 3, 0, .fixedIntervals⟩
        (1 / 2)).castUsize = 0 := by
      simp only [Exponential.inverse_cdf]
      norm_num [hexp0, hln1, hc, fdiv, FRes.castUsize]
    have e2 : (Exponential.inverse_cdf fexp fln ⟨2, 3, 0, .fixedIntervals⟩
        1).castUsize = 3 := by
      simp only [Exponential.inverse_cdf]
      norm_num
      exact castUsize_natCast 3 (by norm_num)
    unfold generate
    rw [if_neg (by norm_num)]
    norm_num [List.range_succ]
    exact ⟨e0, e1, e2⟩

/-- Witness for C2's theorem, with concrete stand-ins for `exp`/`ln`
satisfying the exactly-known values used. -/
theorem exponential_generate_escapes_range_witness :
    ∃ E : Exponential,
      Exponential.new (fun q => if q = 2 then 1 else 0) 2 3 = .ok E ∧
      generate
          (E.inverse_cdf (fun _ => 1) (fun q => if q = 2 then 1 else 0))
          E.genType (fun _ => 0) 3 =
        .ok [2, 0, 3] ∧ ¬ (2 ≤ (0 : ℕ)) :=
  exponential_generate_escapes_range (fun _ => 1)
    (fun q => if q = 2 then 1 else 0) (by norm_num) (by norm_num) rfl

/-- C6: with `n > 0`, `repetitions > 0` and a distribution producing `n`
sizes, `build_with_repetitions(n, repetitions)` yields exactly `n` groups,
each of exactly `repetitions` instances, where group `j` consists of
instances generated from the `j`-th generated size, in the generation
order (unsorted). -/
theorem build_with_repetitions_groups {I : Type} (gen : ℕ → ℕ → I)
    (dist : ℕ → Except RtError (List ℕ)) (n repetitions : ℕ)
    (sizes : List ℕ) (hn : 0 < n) (hr : 0 < repetitions)
    (hd : dist n = .ok sizes) (hlen : sizes.length = n) :
    ∃ groups : List (List I),
      buildWithRepetitions gen dist n repetitions = .ok groups ∧
      groups.length = n ∧
      (∀ g ∈ groups, g.length = repetitions) ∧
      ∀ (j : ℕ) (h1 : j < groups.length) (h2 : j < sizes.length),
        groups.get ⟨j, h1⟩ =
          (List.range repetitions).map
            (fun k => gen (sizes.get ⟨j, h2⟩) k) := by
  refine ⟨sizes.map (fun s => (List.range repetitions).map (fun k => gen s k)),
    ?_, ?_, ?_, ?_⟩
  · unfold buildWithRepetitions
    rw [if_neg (Nat.pos_iff_ne_zero.mp hn),
      if_neg (Nat.pos_iff_ne_zero.mp hr), hd]
    rfl
  · simp [hlen]
  · intro g hg
    obtain ⟨s, _, rfl⟩ := List.mem_map.mp hg
    simp
  · intro j h1 h2
    simp

/-- Witness for C6 at a concrete two-size distribution with three
repetitions per group. -/
theorem build_with_repetitions_groups_witness :
    ∃ groups : List (List ℕ),
      buildWithRepetitions (fun s k => s * 10 + k) (fun _ => .ok [4, 9]) 2
          3 =
        .ok groups ∧
      groups.length = 2 ∧
      (∀ g ∈ groups, g.length = 3) ∧
      ∀ (j : ℕ) (h1 : j < groups.length) (h2 : j < [4, 9].length),
        groups.get ⟨j, h1⟩ =
          (List.range 3).map
            (fun k => (fun s k => s * 10 + k) ([4, 9].get ⟨j, h2⟩) k) :=
  build_with_repetitions_groups (fun s k => s * 10 + k) (fun _ => .ok [4, 9])
    2 3 [4, 9] (by norm_num) (by norm_num) rfl rfl

/-- C7: every invalid configuration fails with the `InvalidArgument`
condition (a Rust `assert!`) and produces no partial output: distribution
`generate` with `n = 0`; `build_with_repetitions` with `n = 0` or
`repetitions = 0`; `measure`/`measure_mut` with `relative_error ≤ 0`.  The
results are quantified over the input-generation and timing capabilities
(`icdf`, `draws`, `gen`, `dist`, `engine`), so the failure cannot depend
on them: the check happens before any input generation or timing. -/
theorem invalid_configuration_fails_fast :
    (∀ (icdf : ℚ → FRes) (gt : GenerationType) (draws : ℕ → ℚ),
        generate icdf gt draws 0 = .error .invalidArgument) ∧
    (∀ (I : Type) (gen : ℕ → ℕ → I) (dist : ℕ → Except RtError (List ℕ))
        (repetitions : ℕ),
        buildWithRepetitions gen dist 0 repetitions =
          .error .invalidArgument) ∧
    (∀ (I : Type) (gen : ℕ → ℕ → I) (dist : ℕ → Except RtError (List ℕ))
        (n : ℕ),
        buildWithRepetitions gen dist n 0 = .error .invalidArgument) ∧
    (∀ (A : Type) (resolution : ℕ) (engine : A → Measurement)
        (algorithms : List A) (relative_error : ℚ), relative_error ≤ 0 →
        measure resolution engine algorithms relative_error =
            .error .invalidArgument ∧
          measure_mut resolution engine algorithms relative_error =
            .error .invalidArgument) := by
  refine ⟨fun icdf gt draws => rfl, fun I gen dist reps => rfl, ?_, ?_⟩
  · intro I gen dist n
    unfold buildWithRepetitions
    by_cases h : n = 0
    · rw [if_pos h]
    · rw [if_neg h, if_pos rfl]
  · intro A resolution engine algorithms re hre
    constructor
    · unfold measure
      rw [if_neg (not_lt.mpr hre)]
    · unfold measure_mut
      rw [if_neg (not_lt.mpr hre)]

/-- Witness for C7 at concrete invalid configurations. -/
theorem invalid_configuration_fails_fast_witness :
    generate (fun _ => FRes.nan) .fixedIntervals (fun _ => 0) 0 =
        .error .invalidArgument ∧
    buildWithRepetitions (fun s k => s + k) (fun _ => .ok []) 0 7 =
        .error .invalidArgument ∧
    buildWithRepetitions (fun s k => s + k) (fun _ => .ok []) 7 0 =
        .error .invalidArgument ∧
    measure 5 (fun _ : ℕ => ⟨"f", []⟩) [1] 0 = .error .invalidArgument ∧
    measure_mut 5 (fun _ : ℕ => ⟨"f", []⟩) [1] 0 = .error .invalidArgument :=
  ⟨invalid_configuration_fails_fast.1 _ _ _,
    invalid_configuration_fails_fast.2.1 ℕ _ _ 7,
    invalid_configuration_fails_fast.2.2.1 ℕ _ _ 7,
    (invalid_configuration_fails_fast.2.2.2 ℕ 5 _ [1] 0 (by norm_num)).1,
    (invalid_configuration_fails_fast.2.2.2 ℕ 5 _ [1] 0 (by norm_num)).2⟩

/-- A concrete `Measurements` value for exercising `log_log_scale`. -/
def demoMeasurements : Measurements :=
  ⟨[⟨"a", [⟨256, 2000⟩]⟩], 1 / 2, 3⟩

/-- C9: `Measurements::log_log_scale` keeps `relative_error` and
`resolution` unchanged, keeps the number of series, and within each series
keeps the `algorithm_name` and the number of points; each point is
replaced by exactly the log-log point transform (log2 of the size, log2 of
the time in microseconds) and nothing else changes. -/
theorem log_log_scale_frame (ms : Measurements) :
    ms.log_log_scale.relative_error = ms.relative_error ∧
    ms.log_log_scale.resolution = ms.resolution ∧
    ms.log_log_scale.measurements.length = ms.measurements.length ∧
    ∀ (j : ℕ) (h1 : j < ms.log_log_scale.measurements.length)
      (h2 : j < ms.measurements.length),
      (ms.log_log_scale.measurements.get ⟨j, h1⟩).algorithm_name =
        (ms.measurements.get ⟨j, h2⟩).algorithm_name ∧
      (ms.log_log_scale.measurements.get ⟨j, h1⟩).measurement.length =
        (ms.measurements.get ⟨j, h2⟩).measurement.length ∧
      ∀ (k : ℕ)
        (h3 :
          k < (ms.log_log_scale.measurements.get ⟨j, h1⟩).measurement.length)
        (h4 : k < (ms.measurements.get ⟨j, h2⟩).measurement.length),
        (ms.log_log_scale.measurements.get ⟨j, h1⟩).measurement.get ⟨k, h3⟩ =
          logLogPoint
            ((ms.measurements.get ⟨j, h2⟩).measurement.get ⟨k, h4⟩) := by
  refine ⟨rfl, rfl, by simp [Measurements.log_log_scale], ?_⟩
  intro j h1 h2
  simp [Measurements.log_log_scale, Measurement.log_log_scale]

/-- Witness for C9 at a concrete one-series result set. -/
theorem log_log_scale_frame_witness :
    demoMeasurements.log_log_scale.relative_error =
        demoMeasurements.relative_error ∧
    demoMeasurements.log_log_scale.resolution = demoMeasurements.resolution ∧
    demoMeasurements.log_log_scale.measurements.length =
      demoMeasurements.measurements.length :=
  ⟨(log_log_scale_frame demoMeasurements).1,
    (log_log_scale_frame demoMeasurements).2.1,
    (log_log_scale_frame demoMeasurements).2.2.1⟩

/-- C10: the log-log point transform of `Measurement::log_log_scale` is
total on degenerate points (in Rust the float-to-integer cast saturates
rather than propagating the non-finite value or panicking): a point of
size 0 (`log2(0) = -inf`, cast saturates to 0) or size 1 (`log2(1) = 0`)
maps to size 0, and a point of duration under one microsecond
(`as_micros() = 0`) maps to a zero duration.  The last conjunct records
that `Measurement::log_log_scale` applies exactly this transform to every
point, with no guard. -/
theorem log_log_scale_degenerate_points (p : Point) :
    ((p.size = 0 ∨ p.size = 1) → (logLogPoint p).size = 0) ∧
    (p.time < 1000 → (logLogPoint p).time = 0) ∧
    (∀ m : Measurement,
      m.log_log_scale.measurement = m.measurement.map logLogPoint) := by
  refine ⟨?_, ?_, fun m => rfl⟩
  · have h1 : Nat.log2 1 = 0 := by
      rw [Nat.log2]
      norm_num
    rintro (h | h) <;> simp [logLogPoint, log2Cast, h, h1]
  · intro h
    have ht : p.time / 1000 = 0 := Nat.div_eq_of_lt h
    simp [logLogPoint, log2Cast, ht]

/-- Witness for C10 on the degenerate point `{size := 1, time := 999 ns}`. -/
theorem log_log_scale_degenerate_points_witness :
    (logLogPoint ⟨1, 999⟩).size = 0 ∧ (logLogPoint ⟨1, 999⟩).time = 0 :=
  ⟨(log_log_scale_degenerate_points ⟨1, 999⟩).1 (Or.inr rfl),
    (log_log_scale_degenerate_points ⟨1, 999⟩).2.1 (by norm_num)⟩

end ChronoProbe
